import Mathlib

/-!
Verification development for the TypeDoc fork's conversion engine
(`src/lib/converter/converter.ts`): a shallow embedding of the
`Converter` class (path preparation, node traversal with its visit-stack
discipline and comment post-processing, type-converter dispatch, the
registry of priority-sorted type converters, the staged diagnostic
pipeline and the convert lifecycle), together with theorems settling the
specification's claims about it.

External collaborators that the converter calls but whose code is not
part of the repository (path utilities, `getRawComment`/`parseComment`,
the `Context` constructor, the compiler oracle) are modelled from the
specification and marked as such in their doc comments.  JavaScript
strings are modelled as Lean strings (working on their character lists),
JavaScript object identity is modelled by explicit numeric `id` fields,
`null`/`undefined` by `Option`, and a thrown `TypeError` by
`Except JsError`.
-/

/-- Model of a TypeScript compiler diagnostic: opaque to the converter,
only its presence matters. -/
structure Diagnostic where
  code : Nat
deriving DecidableEq

/-- Model of a syntax-tree node (`ts.Node`).  JavaScript object identity
(the `===` used by `Array.prototype.indexOf` on the visit stack) is
modelled by the `id` field; `kind` is the integer syntax-kind
discriminator; `fileName` the recorded path; `rawComment` the raw
comment string attached to the node (`null` when absent). -/
structure Node where
  id : Nat
  kind : Nat
  fileName : String
  rawComment : Option String
deriving DecidableEq

/-- Model of the compiler oracle `ts.Program`: the list of source files
and the four diagnostic phase results
(`getOptionsDiagnostics`, `getSyntacticDiagnostics`,
`getGlobalDiagnostics`, `getSemanticDiagnostics`). -/
structure TsProgram where
  sourceFiles : List Node
  optionsDiagnostics : List Diagnostic
  syntacticDiagnostics : List Diagnostic
  globalDiagnostics : List Diagnostic
  semanticDiagnostics : List Diagnostic
deriving DecidableEq

/-- Model of a comment tag (`CommentTag` from the models package,
outside `src/`): constructor arguments `(tagName, paramName, text)`. -/
structure CommentTag where
  tagName : String
  paramName : String
  text : String
deriving DecidableEq

/-- Model of a parsed comment (`{summary, tags}` per the spec's
interface for `parseComment`); `tags` is `none` when the parser returned
no tag array (JavaScript `undefined`). -/
structure Comment where
  shortText : String
  tags : Option (List CommentTag)
deriving DecidableEq

/-- Model of `ReflectionKind` (models package, outside `src/`):
the specialized Coveo component category plus all other members of the
closed enumeration, abstracted by their numeric value. -/
inductive ReflectionKind where
  | coveoComponent
  | other (k : Nat)
deriving DecidableEq

/-- Model of a reflection as far as `Converter.convertNode` observes and
mutates it: its kind, comment, the Coveo component-options flag, the
`notSupportedIn` feature list, whether it is a `DeclarationReflection`
(`instanceof` check), and the textual renderings (`type.toString()`) of
its recorded extended and implemented type references. -/
structure Reflection where
  kind : ReflectionKind
  comment : Option Comment
  coveoComponentOptions : Bool
  notSupportedIn : Option (List String)
  isDeclaration : Bool
  extendedTypes : Option (List String)
  implementedTypes : Option (List String)
deriving DecidableEq

/-- Model of `ProjectReflection` as the converter observes it: the
identity-keyed registry of reflections (own properties of
`project.reflections`). -/
structure ProjectReflection where
  reflections : List (Nat × Reflection)
deriving DecidableEq

/-- Model of the per-conversion `Context`: the program, the prepared
file list, the traversal guard stack and the project. -/
structure Context where
  program : TsProgram
  fileNames : List String
  visitStack : List Node
  project : ProjectReflection
deriving DecidableEq

/-- A JavaScript runtime error escaping the converter; the only one the
embedded code can raise is the `TypeError` from dereferencing a null
regex-match result. -/
inductive JsError where
  | typeError
deriving DecidableEq

/-- Model of `ts.Type`: opaque, identified by a numeric id. -/
structure Ty where
  tyId : Nat
deriving DecidableEq

/-- Model of a TypeDoc `Type` produced by the type converters: opaque
payload. -/
structure TypeModel where
  label : String
deriving DecidableEq

/-- An entry of the two feature-info tables
(`application.notSupportedFeaturesConfig[...]`). -/
structure FeatureInfo where
  link : String
  name : String
deriving DecidableEq

/-- A node-driven type converter (`TypeNodeConverter`): its optional
numeric priority, its `supportsNode` predicate and its `convertNode`
conversion. -/
structure TypeNodeConv where
  priority : Option Int
  supportsNode : Context → Node → Ty → Bool
  convertNode : Context → Node → Ty → TypeModel

/-- A type-driven type converter (`TypeTypeConverter`): its optional
numeric priority, its `supportsType` predicate and its `convertType`
conversion. -/
structure TypeTypeConv where
  priority : Option Int
  supportsType : Context → Ty → Bool
  convertType : Context → Ty → TypeModel

/-- The converter's environment: the kind-indexed node-converter map,
the two priority lists, and the external collaborators
(application config, comment parser, compiler oracle, checker, compiler
host working directory). -/
structure ConverterEnv where
  nodeConverters : Nat → Option (Context → Node → Option Reflection × Context)
  typeNodeConverters : List TypeNodeConv
  typeTypeConverters : List TypeTypeConv
  notSupportedFeaturesConfig : List (String × FeatureInfo)
  parseComment : String → Comment
  createProgram : List String → TsProgram
  getTypeAtLocation : Node → Ty
  currentDirectory : String

/-- Modelled from the spec: `_ts.normalizeSlashes` (compiler internals,
outside `src/`) rewrites backslashes to forward slashes
("slash-normalized"). -/
def normalizeSlashes (s : String) : String :=
  String.mk (s.toList.map fun c => if c = '\\' then '/' else c)

/-- Modelled from the spec: `normalizePath` (`utils/fs`, outside
`src/`) path-normalizes a file name; it too rewrites backslashes to
forward slashes. -/
def normalizePath (s : String) : String :=
  String.mk (s.toList.map fun c => if c = '\\' then '/' else c)

/-- The per-element path preparation applied by `Converter.convert`:
`normalizePath(_ts.normalizeSlashes(fileNames[i]))`. -/
def normalizeFileName (s : String) : String :=
  normalizePath (normalizeSlashes s)

/-- The index loop of `Converter.convert`
(`for (let i = 0, c = fileNames.length; i < c; i++)`), with the
iteration count made structural: one fuel unit per loop iteration,
started with exactly `c - i` units. -/
def prepareLoop : Nat → List String → Nat → List String
  | 0, fns, _ => fns
  | k + 1, fns, i => prepareLoop k (fns.set i (normalizeFileName (fns.getD i ""))) (i + 1)

/-- The path-preparation step of `Converter.convert`: overwrite every
index of `fileNames` with its normalized form. -/
def prepareFileNames (fns : List String) : List String :=
  prepareLoop fns.length fns 0

theorem prepareLoop_cons (k : Nat) :
    ∀ (x : String) (l : List String) (i : Nat),
      prepareLoop k (x :: l) (i + 1) = x :: prepareLoop k l i := by
  induction k with
  | zero => intro x l i; rfl
  | succ k ih =>
    intro x l i
    simp only [prepareLoop, List.set, List.getD, List.get?]
    exact ih x (l.set i (normalizeFileName (l.getD i ""))) (i + 1)

theorem prepareFileNames_eq_map (fns : List String) :
    prepareFileNames fns = fns.map normalizeFileName := by
  induction fns with
  | nil => rfl
  | cons x l ih =>
    simp only [prepareFileNames, List.length_cons, prepareLoop, List.set, List.getD,
      List.get?, Option.getD_some, List.map_cons]
    rw [prepareLoop_cons]
    exact congrArg _ ih

/-- A character of the JavaScript regex class `\w`
(`[A-Za-z0-9_]`). -/
def isWordChar (c : Char) : Bool :=
  (('a' ≤ c && c ≤ 'z') || ('A' ≤ c && c ≤ 'Z') || ('0' ≤ c && c ≤ '9') || c = '_')

/-- A character of the JavaScript regex class `\s`, restricted to the
ASCII whitespace characters. -/
def isJsSpace (c : Char) : Bool :=
  (c = ' ' || c = '\t' || c = '\n' || c = '\r' || c = '\x0B' || c = '\x0C')

/-- Model of JavaScript `String.prototype.toLowerCase` on the ASCII
strings the converter compares: lowercase every character. -/
def jsToLowerCase (s : String) : String :=
  String.mk (s.toList.map Char.toLower)

/-- Occurrence of `needle` as a contiguous substring of `hay`:
the model of JavaScript `hay.indexOf(needle) != -1`. -/
def listContainsSub (needle : List Char) : List Char → Bool
  | [] => needle.isEmpty
  | c :: rest => needle.isPrefixOf (c :: rest) || listContainsSub needle rest

/-- The literal part of the tag pattern
`/@(?:notSupportedIn)\s*((?:[\w]+, )*[\w]+)/g`. -/
def notSupportedLit : List Char := "@notSupportedIn".toList

/-- The literal tested by `comment.indexOf('@componentOptions')`. -/
def componentOptionsLit : List Char := "@componentOptions".toList

/-- Greedy match of the capturing group `((?:[\w]+, )*[\w]+)` at the
start of `l`, with the JavaScript backtracking behaviour: each
iteration takes a maximal `[\w]+` run followed by the literal `", "`,
and if the remainder cannot complete the group, the final iteration
falls back to the bare `[\w]+` run.  Returns the captured characters
and the remainder after the group.  Fuel is one unit per recursive
step; callers supply `l.length + 1`, always sufficient because every
step consumes at least one character. -/
def matchFeatureList : Nat → List Char → Option (List Char × List Char)
  | 0, _ => none
  | k + 1, l =>
    let w := l.takeWhile isWordChar
    if w.isEmpty then none
    else
      match l.drop w.length with
      | ',' :: ' ' :: r2 =>
        match matchFeatureList k r2 with
        | some (cap, rest) => some (w ++ ',' :: ' ' :: cap, rest)
        | none => some (w, ',' :: ' ' :: r2)
      | r => some (w, r)

/-- Attempt to match the whole tag pattern anchored at the start of
`l`: the literal `@notSupportedIn`, then greedy `\s*`, then the
capturing group.  Returns the captured group and the remainder after
the full match.  (Backtracking into `\s*` can never help because `\s`
and `\w` are disjoint.) -/
def matchTagAt (l : List Char) : Option (List Char × List Char) :=
  if notSupportedLit.isPrefixOf l then
    let rest1 := (l.drop notSupportedLit.length).dropWhile isJsSpace
    matchFeatureList (rest1.length + 1) rest1
  else none

/-- Model of `tagRegex.exec(comment)` with `lastIndex = 0`: the first
match of the tag pattern scanning start positions left to right,
returning capture group 1. -/
def execTagRegex : List Char → Option (List Char)
  | [] => none
  | c :: cs =>
    match matchTagAt (c :: cs) with
    | some (cap, _) => some cap
    | none => execTagRegex cs

/-- Model of `comment.replace(tagRegex, '')` with the global flag:
delete every (non-overlapping, left-to-right) match of the tag pattern.
Fuel is one unit per scan step; callers supply `l.length`, sufficient
because every step consumes at least one character. -/
def replaceTagMatchesAux : Nat → List Char → List Char
  | 0, l => l
  | _ + 1, [] => []
  | k + 1, c :: cs =>
    match matchTagAt (c :: cs) with
    | some (_, rest) => replaceTagMatchesAux k rest
    | none => c :: replaceTagMatchesAux k cs

/-- Model of `comment.replace(tagRegex, '')`. -/
def replaceTagMatches (l : List Char) : List Char :=
  replaceTagMatchesAux l.length l

/-- Model of `tag[1].split(/,\s?/)`: split the captured feature list at
every comma, consuming at most one following whitespace character. -/
def splitFeaturesAux (acc : List Char) : List Char → List String
  | [] => [String.mk acc.reverse]
  | ',' :: [] => [String.mk acc.reverse, ""]
  | ',' :: c :: rest =>
    if isJsSpace c then String.mk acc.reverse :: splitFeaturesAux [] rest
    else String.mk acc.reverse :: splitFeaturesAux [] (c :: rest)
  | c :: rest => splitFeaturesAux (c :: acc) rest

/-- Model of `tag[1].split(/,\s?/)`. -/
def splitFeatures (l : List Char) : List String :=
  splitFeaturesAux [] l

/-- Modelled from the spec: `getRawComment` (`factories/comment`,
outside `src/`) reads the raw comment string attached to a node, or
null when there is none. -/
def getRawComment (node : Node) : Option String :=
  node.rawComment

/-- Property lookup in `application.notSupportedFeaturesConfig`. -/
def lookupFeature : List (String × FeatureInfo) → String → Option FeatureInfo
  | [], _ => none
  | (k, v) :: rest, s => if k = s then some v else lookupFeature rest s

/-- The `@notSupportedIn` post-processing block of
`Converter.convertNode` (guarded by
`result && comment != null && comment.indexOf('@notSupportedIn') != -1`
in the source; the `result` guard is handled by the caller).  It
parses the comment with the tag text stripped, ensures a tags array,
then dereferences the regex match `tag[1]`: when `tagRegex.exec`
returned null this is the `TypeError` the source would throw. -/
def notSupportedStep (env : ConverterEnv) (comment? : Option String)
    (r : Reflection) : Except JsError Reflection :=
  match comment? with
  | none => Except.ok r
  | some comment =>
    if listContainsSub notSupportedLit comment.toList then
      let parsed := env.parseComment (String.mk (replaceTagMatches comment.toList))
      let withTags : Comment :=
        if parsed.tags = none then { parsed with tags := some [] } else parsed
      match execTagRegex comment.toList with
      | none => Except.error JsError.typeError
      | some cap =>
        let capS := String.mk cap
        let tagValue :=
          match lookupFeature env.notSupportedFeaturesConfig capS with
          | some info => "<a href=\"" ++ info.link ++ "\">" ++ info.name ++ "</a>"
          | none => capS
        let newTags := withTags.tags.getD [] ++ [CommentTag.mk "not supported in" "" tagValue]
        Except.ok { r with
          comment := some { withTags with tags := some newTags },
          notSupportedIn := some (splitFeatures cap) }
    else Except.ok r

/-- The `@componentOptions` post-processing block of
`Converter.convertNode`: set the Coveo component-options flag when the
raw comment contains the marker. -/
def componentOptionsStep (comment? : Option String) (r : Reflection) : Reflection :=
  match comment? with
  | none => r
  | some comment =>
    if listContainsSub componentOptionsLit comment.toList then
      { r with coveoComponentOptions := true }
    else r

/-- The domain-override block of `Converter.convertNode` (applied when
`result instanceof DeclarationReflection`): walk the recorded extended
types setting the kind to the Coveo component category whenever the
rendered text lowercases to `component`, then walk the implemented
types doing the same whenever the lowercased rendering contains the
substring `icomponentbindings`. -/
def applyCoveoOverride (r : Reflection) : Reflection :=
  let k1 :=
    match r.extendedTypes with
    | none => r.kind
    | some l =>
      l.foldl (fun k t =>
        if jsToLowerCase t = "component" then ReflectionKind.coveoComponent else k) r.kind
  let k2 :=
    match r.implementedTypes with
    | none => k1
    | some l =>
      l.foldl (fun k t =>
        if listContainsSub "icomponentbindings".toList (jsToLowerCase t).toList then
          ReflectionKind.coveoComponent
        else k) k1
  { r with kind := k2 }

/-- The handler dispatch of `Converter.convertNode`: look the node's
kind up in the registry and run the handler if one is installed;
otherwise the result is absent and the context untouched. -/
def runNodeHandler (env : ConverterEnv) (ctx : Context) (node : Node) :
    Option Reflection × Context :=
  match env.nodeConverters node.kind with
  | some h => h ctx node
  | none => (none, ctx)

/-- Model of `Converter.convertNode`: the visit-stack cycle guard, the
copy-on-write push of the node for the duration of the handler call,
the unconditional restore of the caller's stack, and the three comment
and kind post-processing steps applied only when a result was
produced. -/
def convertNode (env : ConverterEnv) (ctx : Context) (node : Node) :
    Except JsError (Option Reflection × Context) :=
  if ctx.visitStack.any (fun m => m.id = node.id) then
    Except.ok (none, ctx)
  else
    let run := runNodeHandler env { ctx with visitStack := ctx.visitStack ++ [node] } node
    let ctx3 : Context := { run.2 with visitStack := ctx.visitStack }
    match run.1 with
    | none => Except.ok (none, ctx3)
    | some r0 =>
      match notSupportedStep env (getRawComment node) r0 with
      | Except.error e => Except.error e
      | Except.ok r1 =>
        let r2 := componentOptionsStep (getRawComment node) r1
        let r3 := if r2.isDeclaration then applyCoveoOverride r2 else r2
        Except.ok (some r3, ctx3)

/-- The type assignment `type = type || context.getTypeAtLocation(node)`
of `Converter.convertType`, performed when a node was supplied. -/
def resolvedType (env : ConverterEnv) (node : Node) (type? : Option Ty) : Ty :=
  match type? with
  | some t => t
  | none => env.getTypeAtLocation node

/-- The type-driven half of `Converter.convertType`
(`if (type) { for (let converter of this.typeTypeConverters) ... }`):
scan the type-driven converter list in order, the first `supportsType`
match wins; fall through to absence. -/
def convertTypeOnly (env : ConverterEnv) (ctx : Context) (type? : Option Ty) :
    Option TypeModel :=
  match type? with
  | none => none
  | some t =>
    match env.typeTypeConverters.find? (fun c => c.supportsType ctx t) with
    | some c => some (c.convertType ctx t)
    | none => none

/-- Model of `Converter.convertType`: when a node is supplied, resolve
the type from the checker if needed and scan the node-driven converter
list first (first `supportsNode` match wins, returned immediately);
only on no match, or when no node was supplied, scan the type-driven
list; absence when nothing matches. -/
def convertType (env : ConverterEnv) (ctx : Context) (node? : Option Node)
    (type? : Option Ty) : Option TypeModel :=
  match node? with
  | some node =>
    let type := resolvedType env node type?
    match env.typeNodeConverters.find? (fun c => c.supportsNode ctx node type) with
    | some c => some (c.convertNode ctx node type)
    | none => convertTypeOnly env ctx (some type)
  | none => convertTypeOnly env ctx type?

/-- Which diagnostic phase getters `Converter.compile` invoked, in
order: instrumentation for the short-circuiting cascade. -/
inductive DiagPhase where
  | options
  | syntactic
  | global
  | semantic
deriving DecidableEq

/-- The diagnostic cascade at the end of `Converter.compile`: run the
four phase getters in the fixed order, returning the first non-empty
phase's list immediately (the `if (diagnostics.length)` tests), and the
empty list when all four are empty.  The second component records the
phases that were actually run, in order. -/
def runDiagnosticPhases (program : TsProgram) : List Diagnostic × List DiagPhase :=
  let d1 := program.optionsDiagnostics
  if d1.length ≠ 0 then (d1, [DiagPhase.options])
  else
    let d2 := program.syntacticDiagnostics
    if d2.length ≠ 0 then (d2, [DiagPhase.options, DiagPhase.syntactic])
    else
      let d3 := program.globalDiagnostics
      if d3.length ≠ 0 then (d3, [DiagPhase.options, DiagPhase.syntactic, DiagPhase.global])
      else
        let d4 := program.semanticDiagnostics
        if d4.length ≠ 0 then
          (d4, [DiagPhase.options, DiagPhase.syntactic, DiagPhase.global, DiagPhase.semantic])
        else
          ([], [DiagPhase.options, DiagPhase.syntactic, DiagPhase.global, DiagPhase.semantic])

/-- Modelled from the spec: `Path.isAbsolute` (node path module,
outside `src/`), for the POSIX paths of the model. -/
def isAbsolutePath (s : String) : Bool :=
  s.startsWith "/"

/-- Modelled from the spec: `Path.join` (node path module, outside
`src/`). -/
def joinPath (a b : String) : String :=
  a ++ "/" ++ b

/-- The per-source-file path fixup of `Converter.compile`: a source
file whose recorded path is not absolute has it rewritten to the
normalized join with the compiler host's working directory. -/
def fixupSourceFile (appDirectory : String) (n : Node) : Node :=
  if isAbsolutePath n.fileName then n
  else { n with fileName := normalizeFileName (joinPath appDirectory n.fileName) }

/-- The source-file traversal of `Converter.compile`: fix up each
file's path, convert it (discarding the per-file reflection result, as
the source does), and thread the context; a thrown error propagates. -/
def compileTraverse (env : ConverterEnv) (ctx : Context) :
    List Node → Except JsError Context
  | [] => Except.ok ctx
  | f :: fs =>
    match convertNode env ctx (fixupSourceFile env.currentDirectory f) with
    | Except.error e => Except.error e
    | Except.ok (_, ctx2) => compileTraverse env ctx2 fs

/-- Model of `Converter.compile`: traverse every source file of the
context's program, then run the diagnostic cascade. -/
def compile (env : ConverterEnv) (ctx : Context) :
    Except JsError ((List Diagnostic × List DiagPhase) × Context) :=
  match compileTraverse env ctx ctx.program.sourceFiles with
  | Except.error e => Except.error e
  | Except.ok ctx2 => Except.ok (runDiagnosticPhases ctx.program, ctx2)

/-- The lifecycle events `Converter.convert` and `Converter.resolve`
trigger, in the order fired. -/
inductive LifeEvent where
  | beginConversion
  | resolveBegin
  | resolveReflection (reflId : Nat)
  | resolveEnd
  | endConversion
deriving DecidableEq

/-- Model of `Converter.resolve`: fire the resolve-begin event, one
resolve event per reflection registered under the project (own
properties, in registry order), then the resolve-end event, and return
the project. -/
def resolve (ctx : Context) : ProjectReflection × List LifeEvent :=
  (ctx.project,
    LifeEvent.resolveBegin ::
      (ctx.project.reflections.map fun kv => LifeEvent.resolveReflection kv.1)
        ++ [LifeEvent.resolveEnd])

/-- The observable outcome of one `Converter.convert` call: the
returned `{errors, project}` pair, the lifecycle events in firing
order, the diagnostic phases run, and the file list as handed to
`ts.createProgram` and to the `Context` constructor (one and the same
mutated array in the source). -/
structure ConvertOutcome where
  errors : List Diagnostic
  project : ProjectReflection
  trace : List LifeEvent
  phasesRun : List DiagPhase
  programFileNames : List String
  contextFileNames : List String
deriving DecidableEq

/-- Modelled from the spec: the `Context` constructor (`context.ts`,
outside `src/`) creates the per-conversion state carrying the project
root (fresh and empty), the file list, the checker and the program. -/
def mkInitialContext (program : TsProgram) (files : List String) : Context :=
  { program := program, fileNames := files, visitStack := [],
    project := { reflections := [] } }

/-- Model of `Converter.convert`: prepare the file names in place,
build the program and context from the prepared list, fire BEGIN, run
`compile`, run `resolve` (unconditionally, whatever `compile`'s
diagnostics were), fire END, and return `{errors, project}`. -/
def convert (env : ConverterEnv) (fileNames : List String) :
    Except JsError ConvertOutcome :=
  let files := prepareFileNames fileNames
  let program := env.createProgram files
  match compile env (mkInitialContext program files) with
  | Except.error e => Except.error e
  | Except.ok (diags, ctx2) =>
    let resolved := resolve ctx2
    Except.ok
      { errors := diags.1
        project := resolved.1
        trace := LifeEvent.beginConversion :: (resolved.2 ++ [LifeEvent.endConversion])
        phasesRun := diags.2
        programFileNames := files
        contextFileNames := files }

/-- A type-converter registry entry, abstracted to what the list
discipline of `addTypeConverter` and `removeTypeConverter` observes:
the JavaScript object identity (modelled by the registration number
`reg`, assigned in registration order) and the optional numeric
priority. -/
structure RegEntry where
  reg : Nat
  priority : Option Int
deriving DecidableEq

/-- The effective priority `converter.priority || 0` used by the sort
comparator. -/
def effP (c : RegEntry) : Int :=
  c.priority.getD 0

/-- The order the two converter lists are claimed to maintain: `a`
before `b` means strictly higher effective priority, or equal priority
with `a` registered earlier. -/
def ordBefore (a b : RegEntry) : Prop :=
  effP b < effP a ∨ (effP a = effP b ∧ a.reg < b.reg)

/-- Stable insertion into a list sorted descending by effective
priority: the inserted element goes before the first entry of equal or
lower priority. -/
def insertDesc (x : RegEntry) : List RegEntry → List RegEntry
  | [] => [x]
  | y :: ys => if effP x < effP y then y :: insertDesc x ys else x :: y :: ys

/-- Model of `list.sort((a, b) => (b.priority || 0) - (a.priority || 0))`:
`Array.prototype.sort` is a stable sort (ES2019), and with a consistent
comparator any stable sort produces the same list, here realized as a
stable insertion sort. -/
def sortByPriorityDesc : List RegEntry → List RegEntry
  | [] => []
  | x :: xs => insertDesc x (sortByPriorityDesc xs)

/-- Removal of the first occurrence of an identity, the model of
`indexOf` followed by `splice(index, 1)` in
`Converter.removeTypeConverter`. -/
def removeFirst (r : Nat) : List RegEntry → List RegEntry
  | [] => []
  | c :: cs => if c.reg = r then cs else c :: removeFirst r cs

/-- The registry state: the next registration number and the two
priority lists. -/
structure TypeRegistry where
  nextReg : Nat
  typeNodeConverters : List RegEntry
  typeTypeConverters : List RegEntry
deriving DecidableEq

/-- Model of `Converter.addTypeConverter`: a converter exposing the
node-driven role (`supportsNode`/`convertNode`) is pushed onto the
node list which is then re-sorted; likewise, independently, for the
type-driven role and the type list. -/
def addTypeConverter (st : TypeRegistry) (hasNodeRole hasTypeRole : Bool)
    (priority : Option Int) : TypeRegistry :=
  let c : RegEntry := { reg := st.nextReg, priority := priority }
  { nextReg := st.nextReg + 1
    typeNodeConverters :=
      if hasNodeRole then sortByPriorityDesc (st.typeNodeConverters ++ [c])
      else st.typeNodeConverters
    typeTypeConverters :=
      if hasTypeRole then sortByPriorityDesc (st.typeTypeConverters ++ [c])
      else st.typeTypeConverters }

/-- Model of `Converter.removeTypeConverter`: splice the converter out
of both lists by identity. -/
def removeTypeConverter (st : TypeRegistry) (r : Nat) : TypeRegistry :=
  { nextReg := st.nextReg
    typeNodeConverters := removeFirst r st.typeNodeConverters
    typeTypeConverters := removeFirst r st.typeTypeConverters }

/-- A register (with its two role flags and priority) or unregister
operation on the registry. -/
inductive RegistryOp where
  | register (hasNodeRole hasTypeRole : Bool) (priority : Option Int)
  | unregister (reg : Nat)

/-- Apply one registry operation. -/
def applyOp (st : TypeRegistry) : RegistryOp → TypeRegistry
  | RegistryOp.register hn ht p => addTypeConverter st hn ht p
  | RegistryOp.unregister r => removeTypeConverter st r

/-- Apply a sequence of registry operations in order. -/
def applyOps (st : TypeRegistry) : List RegistryOp → TypeRegistry
  | [] => st
  | op :: ops => applyOps (applyOp st op) ops

/-- The empty registry `initialize` creates. -/
def initRegistry : TypeRegistry :=
  { nextReg := 0, typeNodeConverters := [], typeTypeConverters := [] }

theorem mem_insertDesc {x a : RegEntry} :
    ∀ {l : List RegEntry}, a ∈ insertDesc x l → a = x ∨ a ∈ l := by
  intro l
  induction l with
  | nil => intro h; simp [insertDesc] at h; exact Or.inl h
  | cons y ys ih =>
    intro h
    simp only [insertDesc] at h
    split at h
    · rcases List.mem_cons.1 h with h1 | h1
      · exact Or.inr (h1 ▸ List.mem_cons_self y ys)
      · rcases ih h1 with h2 | h2
        · exact Or.inl h2
        · exact Or.inr (List.mem_cons_of_mem y h2)
    · rcases List.mem_cons.1 h with h1 | h1
      · exact Or.inl h1
      · exact Or.inr h1

theorem mem_sortByPriorityDesc {a : RegEntry} :
    ∀ {l : List RegEntry}, a ∈ sortByPriorityDesc l → a ∈ l := by
  intro l
  induction l with
  | nil => intro h; simp [sortByPriorityDesc] at h
  | cons x xs ih =>
    intro h
    rcases mem_insertDesc h with h1 | h1
    · exact h1 ▸ List.mem_cons_self x xs
    · exact List.mem_cons_of_mem x (ih h1)

theorem insertDesc_pairwise {x : RegEntry} :
    ∀ {l : List RegEntry}, l.Pairwise ordBefore →
      (∀ y ∈ l, effP x = effP y → x.reg < y.reg) →
      (insertDesc x l).Pairwise ordBefore := by
  intro l
  induction l with
  | nil => intro _ _; simp [insertDesc]
  | cons y ys ih =>
    intro hp hx
    rcases List.pairwise_cons.1 hp with ⟨hy, hys⟩
    simp only [insertDesc]
    split
    · refine List.pairwise_cons.2 ⟨?_, ?_⟩
      · intro z hz
        rcases mem_insertDesc hz with hz1 | hz1
        · subst hz1
          exact Or.inl (by assumption)
        · exact hy z hz1
      · exact ih hys (fun z hz => hx z (List.mem_cons_of_mem y hz))
    · refine List.pairwise_cons.2 ⟨?_, hp⟩
      intro z hz
      have hxy : ¬ effP x < effP y := by assumption
      have hyx : effP y ≤ effP x := le_of_not_lt hxy
      rcases List.mem_cons.1 hz with hz1 | hz1
      · rw [hz1]
        rcases lt_or_eq_of_le hyx with h1 | h1
        · exact Or.inl h1
        · exact Or.inr ⟨h1.symm, hx y (List.mem_cons_self y ys) h1.symm⟩
      · rcases hy z hz1 with h1 | ⟨h1, h2⟩
        · exact Or.inl (lt_of_lt_of_le h1 hyx)
        · rcases lt_or_eq_of_le hyx with h3 | h3
          · exact Or.inl (h1 ▸ h3)
          · have hxz : effP x = effP z := by rw [← h3, h1]
            exact Or.inr ⟨hxz, hx z hz hxz⟩

theorem sortByPriorityDesc_pairwise :
    ∀ {l : List RegEntry},
      l.Pairwise (fun a b => effP a = effP b → a.reg < b.reg) →
      (sortByPriorityDesc l).Pairwise ordBefore := by
  intro l
  induction l with
  | nil => intro _; simp [sortByPriorityDesc]
  | cons x xs ih =>
    intro hp
    rcases List.pairwise_cons.1 hp with ⟨hx, hxs⟩
    exact insertDesc_pairwise (ih hxs)
      (fun y hy => hx y (mem_sortByPriorityDesc hy))

theorem pairwise_ordBefore_weaken {l : List RegEntry}
    (h : l.Pairwise ordBefore) :
    l.Pairwise (fun a b => effP a = effP b → a.reg < b.reg) := by
  refine h.imp ?_
  intro a b hab heq
  rcases hab with h1 | ⟨_, h2⟩
  · exact absurd h1 (by rw [heq]; exact lt_irrefl _)
  · exact h2

/-- The invariant carried through registry operations: every stored
identity was assigned before the counter's current value, and the list
is in priority-descending, registration-stable order. -/
def RegInv (n : Nat) (l : List RegEntry) : Prop :=
  (∀ c ∈ l, c.reg < n) ∧ l.Pairwise ordBefore

theorem regInv_mono {n m : Nat} {l : List RegEntry} (hnm : n ≤ m)
    (h : RegInv n l) : RegInv m l :=
  ⟨fun c hc => lt_of_lt_of_le (h.1 c hc) hnm, h.2⟩

theorem regInv_add {n : Nat} {l : List RegEntry} {p : Option Int}
    (h : RegInv n l) :
    RegInv (n + 1) (sortByPriorityDesc (l ++ [RegEntry.mk n p])) := by
  constructor
  · intro c hc
    rcases List.mem_append.1 (mem_sortByPriorityDesc hc) with h1 | h1
    · exact lt_trans (h.1 c h1) (Nat.lt_succ_self n)
    · rcases List.mem_singleton.1 h1 with h2
      rw [h2]
      exact Nat.lt_succ_self n
  · refine sortByPriorityDesc_pairwise ?_
    rw [List.pairwise_append]
    refine ⟨pairwise_ordBefore_weaken h.2, List.pairwise_singleton _ _, ?_⟩
    intro a ha b hb _
    rw [List.mem_singleton.1 hb]
    exact h.1 a ha

theorem removeFirst_sublist (r : Nat) :
    ∀ l : List RegEntry, (removeFirst r l).Sublist l := by
  intro l
  induction l with
  | nil => simp [removeFirst]
  | cons c cs ih =>
    simp only [removeFirst]
    split
    · exact List.sublist_cons_self c cs
    · exact List.Sublist.cons₂ c ih

theorem regInv_remove {n : Nat} {l : List RegEntry} {r : Nat}
    (h : RegInv n l) : RegInv n (removeFirst r l) :=
  ⟨fun c hc => h.1 c ((removeFirst_sublist r l).subset hc),
    h.2.sublist (removeFirst_sublist r l)⟩

theorem applyOps_inv :
    ∀ (ops : List RegistryOp) (st : TypeRegistry),
      RegInv st.nextReg st.typeNodeConverters →
      RegInv st.nextReg st.typeTypeConverters →
      RegInv (applyOps st ops).nextReg (applyOps st ops).typeNodeConverters ∧
        RegInv (applyOps st ops).nextReg (applyOps st ops).typeTypeConverters := by
  intro ops
  induction ops with
  | nil => intro st h1 h2; exact ⟨h1, h2⟩
  | cons op ops ih =>
    intro st h1 h2
    refine ih (applyOp st op) ?_ ?_
    · cases op with
      | register hn ht p =>
        simp only [applyOp, addTypeConverter]
        split
        · exact regInv_add h1
        · exact regInv_mono (Nat.le_succ _) h1
      | unregister r =>
        exact regInv_remove h1
    · cases op with
      | register hn ht p =>
        simp only [applyOp, addTypeConverter]
        split
        · exact regInv_add h2
        · exact regInv_mono (Nat.le_succ _) h2
      | unregister r =>
        exact regInv_remove h2

theorem ordBefore_strong {a b : RegEntry} (h : ordBefore a b) :
    effP b ≤ effP a ∧ (effP a = effP b → a.reg < b.reg) := by
  rcases h with h1 | ⟨h1, h2⟩
  · exact ⟨le_of_lt h1, fun heq => absurd h1 (by rw [heq]; exact lt_irrefl _)⟩
  · exact ⟨le_of_eq h1.symm, fun _ => h2⟩

/-- C1 (counterexample): the claim says the path-preparation step of
`convert` leaves each normalized path at most once in the file list;
but on the input `["a.ts", "a.ts"]` the prepared list still contains
the normalized path `"a.ts"` twice — the loop normalizes in place and
never deduplicates. -/
theorem convert_path_preparation_no_dedup :
    ¬ ((prepareFileNames ["a.ts", "a.ts"]).count "a.ts" ≤ 1) := by
  decide

/-- C1 (amended): the path-preparation step of `convert` overwrites
every position of the file list with its normalized form, preserving
order and multiplicity; it does not deduplicate — the prepared list is
exactly the elementwise normalization of the input. -/
theorem convert_path_preparation_normalizes_in_order (fns : List String) :
    prepareFileNames fns = fns.map normalizeFileName :=
  prepareFileNames_eq_map fns

/-- C3: `compile`'s diagnostic cascade runs the four phases in the
fixed order options, syntactic, global, semantic; after each phase, a
non-empty result is returned immediately and no later phase getter is
invoked (the recorded phase list stops at the first non-empty phase);
when all four phases are empty the result is the empty list with all
four phases checked; and `compile` itself returns exactly the
cascade's result once the source-file traversal succeeded. -/
theorem compile_diagnostic_phase_cascade (p : TsProgram) :
    (p.optionsDiagnostics ≠ [] →
      runDiagnosticPhases p = (p.optionsDiagnostics, [DiagPhase.options])) ∧
    (p.optionsDiagnostics = [] → p.syntacticDiagnostics ≠ [] →
      runDiagnosticPhases p
        = (p.syntacticDiagnostics, [DiagPhase.options, DiagPhase.syntactic])) ∧
    (p.optionsDiagnostics = [] → p.syntacticDiagnostics = [] →
      p.globalDiagnostics ≠ [] →
      runDiagnosticPhases p
        = (p.globalDiagnostics,
            [DiagPhase.options, DiagPhase.syntactic, DiagPhase.global])) ∧
    (p.optionsDiagnostics = [] → p.syntacticDiagnostics = [] →
      p.globalDiagnostics = [] → p.semanticDiagnostics ≠ [] →
      runDiagnosticPhases p
        = (p.semanticDiagnostics,
            [DiagPhase.options, DiagPhase.syntactic, DiagPhase.global,
              DiagPhase.semantic])) ∧
    (p.optionsDiagnostics = [] → p.syntacticDiagnostics = [] →
      p.globalDiagnostics = [] → p.semanticDiagnostics = [] →
      runDiagnosticPhases p
        = ([], [DiagPhase.options, DiagPhase.syntactic, DiagPhase.global,
              DiagPhase.semantic])) ∧
    (∀ (env : ConverterEnv) (ctx ctx2 : Context),
      compileTraverse env ctx ctx.program.sourceFiles = Except.ok ctx2 →
      compile env ctx = Except.ok (runDiagnosticPhases ctx.program, ctx2)) := by
  refine ⟨?_, ?_, ?_, ?_, ?_, ?_⟩
  · intro h1
    simp [runDiagnosticPhases, List.length_eq_zero, h1]
  · intro h1 h2
    simp [runDiagnosticPhases, List.length_eq_zero, h1, h2]
  · intro h1 h2 h3
    simp [runDiagnosticPhases, List.length_eq_zero, h1, h2, h3]
  · intro h1 h2 h3 h4
    simp [runDiagnosticPhases, List.length_eq_zero, h1, h2, h3, h4]
  · intro h1 h2 h3 h4
    simp [runDiagnosticPhases, List.length_eq_zero, h1, h2, h3, h4]
  · intro env ctx ctx2 h
    simp [compile, h]

/-- C3 (witness): on a program where only the semantic phase is
non-empty, the cascade returns exactly the semantic diagnostics after
having checked all three earlier phases. -/
theorem compile_diagnostic_phase_cascade_witness :
    runDiagnosticPhases
        (TsProgram.mk [] [] [] [] [Diagnostic.mk 7])
      = ([Diagnostic.mk 7],
          [DiagPhase.options, DiagPhase.syntactic, DiagPhase.global,
            DiagPhase.semantic]) :=
  (compile_diagnostic_phase_cascade
      (TsProgram.mk [] [] [] [] [Diagnostic.mk 7])).2.2.2.1
    rfl rfl rfl (by decide)

/-- C6: after any sequence of register and unregister operations
starting from the empty registry, both `typeNodeConverters` and
`typeTypeConverters` are sorted in descending order of effective
priority (missing priority counted as 0), and entries of equal
priority appear in registration order (stable ties). -/
theorem typeConverter_lists_sorted_stable (ops : List RegistryOp) :
    ((applyOps initRegistry ops).typeNodeConverters.Pairwise fun a b =>
      effP b ≤ effP a ∧ (effP a = effP b → a.reg < b.reg)) ∧
    ((applyOps initRegistry ops).typeTypeConverters.Pairwise fun a b =>
      effP b ≤ effP a ∧ (effP a = effP b → a.reg < b.reg)) := by
  have hinit : RegInv initRegistry.nextReg ([] : List RegEntry) :=
    ⟨fun c hc => absurd hc (List.not_mem_nil c), List.Pairwise.nil⟩
  have h := applyOps_inv ops initRegistry hinit hinit
  exact ⟨h.1.2.imp ordBefore_strong, h.2.2.imp ordBefore_strong⟩

/-- C5: `convertNode` returns absence without throwing in both
traversal-gap cases: a node already on the visit stack (by identity)
yields absence immediately with the context untouched — for every
handler environment, so no handler can have been invoked — and a node
kind with no registered handler yields absence rather than an error. -/
theorem convertNode_traversal_gaps_absence (env : ConverterEnv)
    (ctx : Context) (node : Node) :
    ((∃ m ∈ ctx.visitStack, m.id = node.id) →
      convertNode env ctx node = Except.ok (none, ctx)) ∧
    (env.nodeConverters node.kind = none →
      convertNode env ctx node = Except.ok (none, ctx)) := by
  constructor
  · rintro ⟨m, hm, hid⟩
    have hg : (ctx.visitStack.any fun m => m.id = node.id) = true := by
      simp only [List.any_eq_true, decide_eq_true_eq]
      exact ⟨m, hm, hid⟩
    simp [convertNode, hg]
  · intro h
    by_cases hg : (ctx.visitStack.any fun m => m.id = node.id) = true
    · simp [convertNode, hg]
    · simp [convertNode, hg, runNodeHandler, h]

/-- C5 (witness): with no handlers registered, `convertNode` returns
absence both for a node already on the stack and for a node whose kind
has no handler. -/
theorem convertNode_traversal_gaps_absence_witness :
    convertNode
        (ConverterEnv.mk (fun _ => none) [] [] [] (fun s => Comment.mk s none)
          (fun _ => TsProgram.mk [] [] [] [] []) (fun _ => Ty.mk 0) "/app")
        (Context.mk (TsProgram.mk [] [] [] [] []) []
          [Node.mk 1 2 "/a.ts" none] (ProjectReflection.mk []))
        (Node.mk 1 2 "/a.ts" none)
      = Except.ok (none,
          Context.mk (TsProgram.mk [] [] [] [] []) []
            [Node.mk 1 2 "/a.ts" none] (ProjectReflection.mk [])) ∧
    convertNode
        (ConverterEnv.mk (fun _ => none) [] [] [] (fun s => Comment.mk s none)
          (fun _ => TsProgram.mk [] [] [] [] []) (fun _ => Ty.mk 0) "/app")
        (Context.mk (TsProgram.mk [] [] [] [] []) [] [] (ProjectReflection.mk []))
        (Node.mk 1 2 "/a.ts" none)
      = Except.ok (none,
          Context.mk (TsProgram.mk [] [] [] [] []) [] [] (ProjectReflection.mk [])) :=
  ⟨(convertNode_traversal_gaps_absence _ _ _).1
      ⟨Node.mk 1 2 "/a.ts" none, by simp, rfl⟩,
    (convertNode_traversal_gaps_absence _ _ _).2 rfl⟩

/-- C7: whenever `convertNode` returns normally, the returned context
carries the very same visit stack the caller had before the call: the
node is pushed only onto a copy installed for the handler's duration,
and the caller's stack is restored before post-processing, whatever the
handler did to the context. -/
theorem convertNode_restores_visitStack (env : ConverterEnv) (ctx : Context)
    (node : Node) (res : Option Reflection) (ctx2 : Context)
    (h : convertNode env ctx node = Except.ok (res, ctx2)) :
    ctx2.visitStack = ctx.visitStack := by
  by_cases hg : (ctx.visitStack.any fun m => m.id = node.id) = true
  · simp only [convertNode, hg, if_true, Except.ok.injEq, Prod.mk.injEq] at h
    rw [← h.2]
  · simp only [convertNode, hg, if_false, Bool.false_eq_true] at h
    cases hr1 : (runNodeHandler env
        { ctx with visitStack := ctx.visitStack ++ [node] } node).1 with
    | none =>
      rw [hr1] at h
      simp only [Except.ok.injEq, Prod.mk.injEq] at h
      rw [← h.2]
    | some r0 =>
      rw [hr1] at h
      dsimp only at h
      cases hns : notSupportedStep env (getRawComment node) r0 with
      | error e =>
        rw [hns] at h
        simp at h
      | ok r1 =>
        rw [hns] at h
        simp only [Except.ok.injEq, Prod.mk.injEq] at h
        rw [← h.2]

/-- C7 (witness): a handler that grows the visit stack and registers a
reflection still leaves the caller's stack exactly as it was. -/
theorem convertNode_restores_visitStack_witness :
    (Context.mk (TsProgram.mk [] [] [] [] []) []
        [Node.mk 9 9 "/keep.ts" none] (ProjectReflection.mk [(0,
          Reflection.mk (ReflectionKind.other 0) none false none false none none)])).visitStack
      = (Context.mk (TsProgram.mk [] [] [] [] []) []
          [Node.mk 9 9 "/keep.ts" none] (ProjectReflection.mk [])).visitStack :=
  convertNode_restores_visitStack
    (ConverterEnv.mk
      (fun _ => some (fun c _ =>
        (some (Reflection.mk (ReflectionKind.other 0) none false none false none none),
          { c with
            visitStack := c.visitStack ++ [Node.mk 3 3 "/h.ts" none],
            project := ProjectReflection.mk [(0,
              Reflection.mk (ReflectionKind.other 0) none false none false none none)] })))
      [] [] [] (fun s => Comment.mk s none)
      (fun _ => TsProgram.mk [] [] [] [] []) (fun _ => Ty.mk 0) "/app")
    (Context.mk (TsProgram.mk [] [] [] [] []) []
      [Node.mk 9 9 "/keep.ts" none] (ProjectReflection.mk []))
    (Node.mk 1 2 "/a.ts" none)
    (some (Reflection.mk (ReflectionKind.other 0) none false none false none none))
    (Context.mk (TsProgram.mk [] [] [] [] []) []
      [Node.mk 9 9 "/keep.ts" none] (ProjectReflection.mk [(0,
        Reflection.mk (ReflectionKind.other 0) none false none false none none)]))
    (by rfl)

/-- C2 (failing input): a node whose handler produces a reflection and
whose raw comment is exactly `@notSupportedIn` — the substring check
`comment.indexOf('@notSupportedIn') != -1` succeeds, the tag pattern
finds no match because no word character follows, and `convertNode`
dereferences the null match (`tag[1]`), throwing a `TypeError` instead
of applying the defensive treat-as-absent fallback the claim
requires. -/
theorem convertNode_unmatched_marker_throws :
    listContainsSub notSupportedLit ("@notSupportedIn".toList) = true ∧
    execTagRegex ("@notSupportedIn".toList) = none ∧
    convertNode
        (ConverterEnv.mk
          (fun _ => some (fun c _ =>
            (some (Reflection.mk (ReflectionKind.other 0) none false none false none none),
              c)))
          [] [] [] (fun s => Comment.mk s none)
          (fun _ => TsProgram.mk [] [] [] [] []) (fun _ => Ty.mk 0) "/app")
        (Context.mk (TsProgram.mk [] [] [] [] []) [] [] (ProjectReflection.mk []))
        (Node.mk 1 3 "/a.ts" (some "@notSupportedIn"))
      = Except.error JsError.typeError :=
  ⟨rfl, rfl, rfl⟩

/-- The kind-override fold keeps the Coveo component kind once set. -/
theorem foldOverride_preserve {P : String → Prop} [DecidablePred P] :
    ∀ l : List String,
      l.foldl (fun k t => if P t then ReflectionKind.coveoComponent else k)
        ReflectionKind.coveoComponent = ReflectionKind.coveoComponent := by
  intro l
  induction l with
  | nil => rfl
  | cons x xs ih =>
    by_cases hx : P x
    · simp only [List.foldl_cons, if_pos hx]
      exact ih
    · simp only [List.foldl_cons, if_neg hx]
      exact ih

/-- Any element satisfying the predicate forces the kind-override fold
to the Coveo component kind, whatever the accumulator was. -/
theorem foldOverride_of_exists {P : String → Prop} [DecidablePred P] :
    ∀ (l : List String) (k0 : ReflectionKind), (∃ t ∈ l, P t) →
      l.foldl (fun k t => if P t then ReflectionKind.coveoComponent else k) k0
        = ReflectionKind.coveoComponent := by
  intro l
  induction l with
  | nil =>
    rintro k0 ⟨t, ht, _⟩
    exact absurd ht (List.not_mem_nil t)
  | cons x xs ih =>
    rintro k0 ⟨t, ht, hp⟩
    rcases List.mem_cons.1 ht with h1 | h1
    · by_cases hx : P x
      · simp only [List.foldl_cons, if_pos hx]
        exact foldOverride_preserve xs
      · exact absurd (h1 ▸ hp) hx
    · simp only [List.foldl_cons]
      exact ih _ ⟨t, h1, hp⟩

/-- C9: for a declaration reflection, if any recorded extended type's
rendered text equals `component` case-insensitively, or any recorded
implemented type's rendered text contains the substring
`icomponentbindings` case-insensitively, the override step of
`convertNode` sets the reflection's kind to the Coveo component
category; the check reads only the rendered text. -/
theorem convertNode_component_kind_override (r : Reflection)
    (h : (∃ l, r.extendedTypes = some l ∧ ∃ t ∈ l, jsToLowerCase t = "component") ∨
      (∃ l, r.implementedTypes = some l ∧
        ∃ t ∈ l,
          listContainsSub ("icomponentbindings".toList)
            (jsToLowerCase t).toList = true)) :
    (applyCoveoOverride r).kind = ReflectionKind.coveoComponent := by
  rcases h with ⟨l, hl, hex⟩ | ⟨l, hl, hex⟩
  · simp only [applyCoveoOverride, hl]
    rw [foldOverride_of_exists l r.kind hex]
    cases r.implementedTypes with
    | none => rfl
    | some l2 =>
      simp only
      rw [foldOverride_preserve l2]
  · simp only [applyCoveoOverride, hl]
    rw [foldOverride_of_exists l _ hex]

theorem find?_eq_first {α : Type} (p : α → Bool) :
    ∀ (pre : List α) (c : α) (post : List α),
      (∀ d ∈ pre, p d = false) → p c = true →
      (pre ++ c :: post).find? p = some c := by
  intro pre
  induction pre with
  | nil =>
    intro c post _ hc
    simp [List.find?_cons_of_pos, hc]
  | cons a pre ih =>
    intro c post hpre hc
    have ha : p a = false := hpre a (List.mem_cons_self a pre)
    rw [List.cons_append, List.find?_cons_of_neg _ (by simp [ha])]
    exact ih c post (fun d hd => hpre d (List.mem_cons_of_mem a hd)) hc

/-- C4: `convertType` dispatch policy.  With a node supplied, the
node-driven list is scanned in order and the first `supportsNode` match
wins: its `convertNode` result is returned immediately, independent of
every later node-driven converter and of the whole type-driven list.
Type-driven converters are scanned (first `supportsType` match wins)
only when no node was supplied or no node-driven converter matched;
with a node but no type, the type is the checker's answer at the node's
location; and when nothing matches the result is absence. -/
theorem convertType_dispatch_policy (env : ConverterEnv) (ctx : Context)
    (node : Node) (type? : Option Ty) :
    (∀ (pre : List TypeNodeConv) (c : TypeNodeConv) (post : List TypeNodeConv)
        (tt : List TypeTypeConv),
      env.typeNodeConverters = pre ++ c :: post →
      (∀ d ∈ pre, d.supportsNode ctx node (resolvedType env node type?) = false) →
      c.supportsNode ctx node (resolvedType env node type?) = true →
      convertType { env with typeTypeConverters := tt } ctx (some node) type?
        = some (c.convertNode ctx node (resolvedType env node type?))) ∧
    (env.typeNodeConverters.find?
        (fun c => c.supportsNode ctx node (resolvedType env node type?)) = none →
      convertType env ctx (some node) type?
        = convertTypeOnly env ctx (some (resolvedType env node type?))) ∧
    (convertType env ctx none type? = convertTypeOnly env ctx type?) ∧
    (resolvedType env node none = env.getTypeAtLocation node) ∧
    (∀ (t : Ty) (pre : List TypeTypeConv) (c : TypeTypeConv)
        (post : List TypeTypeConv),
      env.typeTypeConverters = pre ++ c :: post →
      (∀ d ∈ pre, d.supportsType ctx t = false) →
      c.supportsType ctx t = true →
      convertTypeOnly env ctx (some t) = some (c.convertType ctx t)) ∧
    (convertTypeOnly env ctx none = none) ∧
    (∀ t : Ty,
      env.typeTypeConverters.find? (fun c => c.supportsType ctx t) = none →
      convertTypeOnly env ctx (some t) = none) := by
  refine ⟨?_, ?_, rfl, rfl, ?_, rfl, ?_⟩
  · intro pre c post tt henv hpre hc
    simp only [convertType]
    rw [show resolvedType { env with typeTypeConverters := tt } node type?
          = resolvedType env node type? from rfl,
      show ({ env with typeTypeConverters := tt } :
          ConverterEnv).typeNodeConverters = env.typeNodeConverters from rfl,
      henv, find?_eq_first _ pre c post hpre hc]
  · intro hnone
    simp only [convertType, hnone]
  · intro t pre c post henv hpre hc
    simp only [convertTypeOnly, henv, find?_eq_first _ pre c post hpre hc]
  · intro t hnone
    simp only [convertTypeOnly, hnone]

/-- C4 (witness): with a non-matching node-driven converter ahead of a
matching one and a type-driven converter behind, the first node-driven
match is returned. -/
theorem convertType_dispatch_policy_witness :
    convertType
        (ConverterEnv.mk (fun _ => none)
          [TypeNodeConv.mk none (fun _ _ _ => false) (fun _ _ _ => TypeModel.mk "A"),
            TypeNodeConv.mk none (fun _ _ _ => true) (fun _ _ _ => TypeModel.mk "B")]
          [TypeTypeConv.mk none (fun _ _ => true) (fun _ _ => TypeModel.mk "T")]
          [] (fun s => Comment.mk s none)
          (fun _ => TsProgram.mk [] [] [] [] []) (fun _ => Ty.mk 0) "/app")
        (Context.mk (TsProgram.mk [] [] [] [] []) [] [] (ProjectReflection.mk []))
        (some (Node.mk 1 2 "/a.ts" none)) none
      = some (TypeModel.mk "B") :=
  (convertType_dispatch_policy
      (ConverterEnv.mk (fun _ => none)
        [TypeNodeConv.mk none (fun _ _ _ => false) (fun _ _ _ => TypeModel.mk "A"),
          TypeNodeConv.mk none (fun _ _ _ => true) (fun _ _ _ => TypeModel.mk "B")]
        [TypeTypeConv.mk none (fun _ _ => true) (fun _ _ => TypeModel.mk "T")]
        [] (fun s => Comment.mk s none)
        (fun _ => TsProgram.mk [] [] [] [] []) (fun _ => Ty.mk 0) "/app")
      (Context.mk (TsProgram.mk [] [] [] [] []) [] [] (ProjectReflection.mk []))
      (Node.mk 1 2 "/a.ts" none) none).1
    [TypeNodeConv.mk none (fun _ _ _ => false) (fun _ _ _ => TypeModel.mk "A")]
    (TypeNodeConv.mk none (fun _ _ _ => true) (fun _ _ _ => TypeModel.mk "B"))
    []
    [TypeTypeConv.mk none (fun _ _ => true) (fun _ _ => TypeModel.mk "T")]
    rfl
    (by
      intro d hd
      rw [List.mem_singleton.1 hd])
    rfl

/-- C8: the lifecycle of `convert` is BEGIN, then the compile phase,
then the resolve pass (resolve-begin, one resolve event per registered
reflection, resolve-end), then END; the resolve events are present in
the trace whatever the diagnostics were — in particular when `compile`
returned a non-empty list — and the returned outcome carries both the
diagnostic-pipeline errors and the resolved project. -/
theorem convert_lifecycle_order (env : ConverterEnv) (fns : List String)
    (out : ConvertOutcome) (h : convert env fns = Except.ok out) :
    out.trace
      = LifeEvent.beginConversion ::
          ((LifeEvent.resolveBegin ::
            ((out.project.reflections.map fun kv =>
              LifeEvent.resolveReflection kv.1) ++ [LifeEvent.resolveEnd]))
            ++ [LifeEvent.endConversion]) ∧
    out.errors
      = (runDiagnosticPhases (env.createProgram (prepareFileNames fns))).1 ∧
    out.phasesRun
      = (runDiagnosticPhases (env.createProgram (prepareFileNames fns))).2 := by
  simp only [convert] at h
  cases hc : compile env
      (mkInitialContext (env.createProgram (prepareFileNames fns))
        (prepareFileNames fns)) with
  | error e =>
    rw [hc] at h
    simp at h
  | ok pr =>
    obtain ⟨diags, ctxr⟩ := pr
    rw [hc] at h
    dsimp only at h
    simp only [Except.ok.injEq] at h
    simp only [compile] at hc
    cases ht : compileTraverse env
        (mkInitialContext (env.createProgram (prepareFileNames fns))
          (prepareFileNames fns))
        (mkInitialContext (env.createProgram (prepareFileNames fns))
          (prepareFileNames fns)).program.sourceFiles with
    | error e =>
      rw [ht] at hc
      simp at hc
    | ok ctxt =>
      rw [ht] at hc
      dsimp only at hc
      simp only [Except.ok.injEq, Prod.mk.injEq] at hc
      obtain ⟨hc1, hc2⟩ := hc
      subst hc1
      subst hc2
      rw [← h]
      refine ⟨?_, ?_, ?_⟩ <;> simp [resolve, mkInitialContext]

/-- Environment for the lifecycle witness: the compiler oracle reports
one semantic diagnostic and no source files. -/
def lifecycleEnvW : ConverterEnv :=
  ConverterEnv.mk (fun _ => none) [] [] [] (fun s => Comment.mk s none)
    (fun _ => TsProgram.mk [] [] [] [] [Diagnostic.mk 9]) (fun _ => Ty.mk 0) "/app"

/-- Outcome of `convert lifecycleEnvW ["x"]`. -/
def lifecycleOutW : ConvertOutcome :=
  ConvertOutcome.mk [Diagnostic.mk 9] (ProjectReflection.mk [])
    [LifeEvent.beginConversion, LifeEvent.resolveBegin, LifeEvent.resolveEnd,
      LifeEvent.endConversion]
    [DiagPhase.options, DiagPhase.syntactic, DiagPhase.global, DiagPhase.semantic]
    ["x"] ["x"]

/-- C8 (witness): with a non-empty semantic diagnostic list the resolve
events still fire between BEGIN and END, and the errors are returned
alongside the project. -/
theorem convert_lifecycle_order_witness :
    lifecycleOutW.trace
      = LifeEvent.beginConversion ::
          ((LifeEvent.resolveBegin ::
            ((lifecycleOutW.project.reflections.map fun kv =>
              LifeEvent.resolveReflection kv.1) ++ [LifeEvent.resolveEnd]))
            ++ [LifeEvent.endConversion]) ∧
    lifecycleOutW.errors
      = (runDiagnosticPhases
          (lifecycleEnvW.createProgram (prepareFileNames ["x"]))).1 ∧
    lifecycleOutW.phasesRun
      = (runDiagnosticPhases
          (lifecycleEnvW.createProgram (prepareFileNames ["x"]))).2 :=
  convert_lifecycle_order lifecycleEnvW ["x"] lifecycleOutW (by rfl)

/-- C10: `convert` hands onward the caller's file list with every
element overwritten by its slash- and path-normalized form — the array
is mutated in place before program construction, and the very same list
is given to `ts.createProgram` and to the `Context`, so the caller's
original path strings are not preserved. -/
theorem convert_overwrites_file_list (env : ConverterEnv) (fns : List String)
    (out : ConvertOutcome) (h : convert env fns = Except.ok out) :
    out.contextFileNames = fns.map normalizeFileName ∧
    out.programFileNames = out.contextFileNames := by
  simp only [convert] at h
  cases hc : compile env
      (mkInitialContext (env.createProgram (prepareFileNames fns))
        (prepareFileNames fns)) with
  | error e =>
    rw [hc] at h
    simp at h
  | ok pr =>
    obtain ⟨diags, ctxr⟩ := pr
    rw [hc] at h
    dsimp only at h
    simp only [Except.ok.injEq] at h
    rw [← h]
    exact ⟨prepareFileNames_eq_map fns, rfl⟩

/-- Environment for the mutation witness: an empty program. -/
def mutationEnvW : ConverterEnv :=
  ConverterEnv.mk (fun _ => none) [] [] [] (fun s => Comment.mk s none)
    (fun _ => TsProgram.mk [] [] [] [] []) (fun _ => Ty.mk 0) "/app"

/-- Outcome of `convert mutationEnvW ["a\\b.ts"]`: the backslashed
input path has been rewritten. -/
def mutationOutW : ConvertOutcome :=
  ConvertOutcome.mk [] (ProjectReflection.mk [])
    [LifeEvent.beginConversion, LifeEvent.resolveBegin, LifeEvent.resolveEnd,
      LifeEvent.endConversion]
    [DiagPhase.options, DiagPhase.syntactic, DiagPhase.global, DiagPhase.semantic]
    ["a/b.ts"] ["a/b.ts"]

/-- C10 (witness): a backslashed input path reaches both the program
and the context in normalized form. -/
theorem convert_overwrites_file_list_witness :
    mutationOutW.contextFileNames = ["a\\b.ts"].map normalizeFileName ∧
    mutationOutW.programFileNames = mutationOutW.contextFileNames :=
  convert_overwrites_file_list mutationEnvW ["a\\b.ts"] mutationOutW (by rfl)

/-- C9 (witness): a declaration extending a type rendered `Component`
(capital letter) gets the Coveo component kind. -/
theorem convertNode_component_kind_override_witness :
    (applyCoveoOverride
        (Reflection.mk (ReflectionKind.other 5) none false none true
          (some ["Component"]) none)).kind
      = ReflectionKind.coveoComponent :=
  convertNode_component_kind_override
    (Reflection.mk (ReflectionKind.other 5) none false none true
      (some ["Component"]) none)
    (Or.inl ⟨["Component"], rfl, "Component", by simp, by decide⟩)

/-- Fidelity check of the regex model: on a well-formed comment the
first match's capture group is the full comma-separated feature
list. -/
theorem execTagRegex_well_formed :
    execTagRegex "/** @notSupportedIn IE, Firefox */".toList
      = some "IE, Firefox".toList := by
  decide

/-- Fidelity check of the split model on the captured group. -/
theorem splitFeatures_well_formed :
    splitFeatures "IE, Firefox".toList = ["IE", "Firefox"] := by
  decide

/-- Fidelity check of the replacement model: the whole tag match is
stripped from the comment before parsing. -/
theorem replaceTagMatches_well_formed :
    String.mk (replaceTagMatches "/** @notSupportedIn IE, Firefox */".toList)
      = "/**  */" := by
  decide

/-- Fidelity check of the regex backtracking: a trailing comma is left
out of the capture, as in JavaScript. -/
theorem execTagRegex_trailing_comma :
    execTagRegex "@notSupportedIn IE,".toList = some "IE".toList := by
  decide
